import Mathlib

/-!
# leaderboard-service: storage aggregation and the websocket hub

A shallow embedding of `storage/storage.go`, `storage/redis.go`,
`storage/mongodb.go`, `api/hub.go` and `api/handlers.go`.

* The Redis and MongoDB clients are external: each store is a record of the
  answers its driver gives, and every function returns, next to its Go result,
  the list of driver calls it issued (in program order).
* A Go `error` is its message; `none : Option Error` is `nil`.
* A Go slice result is `Option (List _)`: `none` is the `nil` slice.
* `float64` is `Float`; the code only converts to it and copies it.
-/

namespace LeaderboardService

/-! ## storage -/

/-- Go `error`, represented by its message. -/
abbrev Error := String

/-- Go `redis.Z`: a sorted-set member with its score. The driver decodes every
member of a range reply as a string, so `member.Member.(string)` is the
member itself. -/
structure Z where
  Score : Float
  Member : String

/-- PlayerScore (storage.go:14). -/
structure PlayerScore where
  PlayerID : String
  PlayerName : String
  Score : Float

/-- The anonymous struct `player` decoded from a cursor in `GetPlayerNames`. -/
structure PlayerDoc where
  PlayerID : String
  Name : String
deriving DecidableEq, Repr

/-- Functions started with `go`. -/
inductive Task where
  | CreatePlayerIfNotExists (playerID : String)
  | broadcastLeaderboard
deriving DecidableEq, Repr

/-- Observable actions of the storage and handler code, in program order. -/
inductive Event where
  /-- Call `client.ZAdd(ctx, key, z)`. -/
  | ZAdd (key : String) (z : Z)
  /-- Call `client.ZRevRangeWithScores(ctx, key, start, stop)`. -/
  | ZRevRangeWithScores (key : String) (start stop : Int)
  /-- Call `coll.Find(ctx, filter)` with the filter `playerId $in playerIDs`. -/
  | Find (playerIDs : List String)
  /-- Call `coll.UpdateOne(ctx, filter, update, opts)`: the upsert that filters on
  `playerId = playerID` and sets, on insert only, `playerId`, `name` and `createdAt`. -/
  | UpdateOne (playerID : String) (name : String)
  /-- Call `log.Printf` or `log.Println`. -/
  | log (line : String)
  /-- Call `fmt.Printf`. -/
  | print (line : String)
  /-- Statement `go t`. -/
  | go (t : Task)

/-- Is the event a `coll.Find` call. -/
def Event.isFind : Event → Bool
  | .Find _ => true
  | _ => false

/-- Go `map[string]string`, newest binding first, one binding per key. -/
abbrev NameMap := List (String × String)

/-- Assignment `m[k] = v`. -/
def NameMap.set (m : NameMap) (k v : String) : NameMap :=
  (k, v) :: m.filter (fun kv => kv.1 != k)

/-- Index expression `m[k]`: the zero value `""` when `k` is absent. -/
def NameMap.index (m : NameMap) (k : String) : String :=
  match m.lookup k with
  | some v => v
  | none => ""

/-- Presence test `_, ok := m[k]`. -/
def NameMap.has (m : NameMap) (k : String) : Bool :=
  (m.lookup k).isSome

/-- The Redis client as seen by `RedisStore`: the answer to each command. -/
structure RedisStore where
  zadd : String → Z → Option Error
  zrevrangeWithScores : String → Int → Int → Except Error (List Z)

/-- A `*mongo.Cursor` as the loop of `GetPlayerNames` sees it: `docs` are the
documents for which `cursor.Next` returned true, each one decoded (`none`:
`cursor.Decode` returned an error); `err` is `cursor.Err()` once `Next` has
returned false, the error that stopped the iteration (`none`: the cursor was
read to its end). -/
structure Cursor where
  docs : List (Option PlayerDoc)
  err : Option Error
deriving DecidableEq, Repr

/-- The MongoDB client as seen by `MongoStore`. `find` answers with the error
of `coll.Find` or with the cursor it returned; `updateOne` answers with the
error of the upsert. -/
structure MongoStore where
  find : List String → Except Error Cursor
  updateOne : String → Option Error

/-- Storage (storage.go:8). -/
structure Storage where
  mongo : MongoStore
  redis : RedisStore

/-- Constant `leaderboardKey` (redis.go:19). -/
def leaderboardKey : String := "leaderboard"

/-- RedisStore.AddScore (redis.go:32). -/
def RedisStore.AddScore (rs : RedisStore) (playerID : String) (score : Int) :
    Option Error × List Event :=
  let z : Z := { Score := Float.ofInt score, Member := playerID }
  (rs.zadd leaderboardKey z, [Event.ZAdd leaderboardKey z])

/-- RedisStore.GetLeaderboard (redis.go:40). -/
def RedisStore.GetLeaderboard (rs : RedisStore) : Except Error (List Z) × List Event :=
  (rs.zrevrangeWithScores leaderboardKey 0 9, [Event.ZRevRangeWithScores leaderboardKey 0 9])

/-- MongoStore.GetPlayerNames (mongodb.go:53). The loop runs while
`cursor.Next` is true and skips a document that does not decode;
`cursor.Err()` is never read. -/
def MongoStore.GetPlayerNames (ms : MongoStore) (playerIDs : List String) :
    Except Error NameMap × List Event :=
  match ms.find playerIDs with
  | .error err => (.error err, [Event.Find playerIDs])
  | .ok cursor =>
    let nameMap : NameMap := cursor.docs.foldl
      (fun nameMap doc =>
        match doc with
        | some player => nameMap.set player.PlayerID player.Name
        | none => nameMap)
      []
    (.ok nameMap, [Event.Find playerIDs])

/-- MongoStore.CreatePlayerIfNotExists (mongodb.go:76): no result, only effects. -/
def MongoStore.CreatePlayerIfNotExists (ms : MongoStore) (playerID : String) : List Event :=
  match ms.updateOne playerID with
  | some err =>
    [Event.UpdateOne playerID "New Player",
     Event.log ("Oyuncu oluşturulurken/kontrol edilirken hata: " ++ err)]
  | none => [Event.UpdateOne playerID "New Player"]

/-- Storage.AddScore (storage.go:38). -/
def Storage.AddScore (s : Storage) (playerID : String) (score : Int) :
    Option Error × List Event :=
  let r := s.redis.AddScore playerID score
  (r.1, Event.go (Task.CreatePlayerIfNotExists playerID) :: r.2)

/-- The merge loop of `GetLeaderboard` (storage.go:70-82) for one member. -/
def mergeEntry (nameMap : NameMap) (member : Z) : PlayerScore :=
  let playerName := nameMap.index member.Member
  let playerName := if playerName == "" then "New Player" else playerName
  { PlayerID := member.Member, PlayerName := playerName, Score := member.Score }

/-- Storage.GetLeaderboard (storage.go:46). -/
def Storage.GetLeaderboard (s : Storage) :
    (Option (List PlayerScore) × Option Error) × List Event :=
  match s.redis.GetLeaderboard with
  | (.error err, t1) => ((none, some err), t1)
  | (.ok redisScores, t1) =>
    if redisScores.length = 0 then
      ((some [], none), t1)
    else
      let playerIDs := redisScores.map (fun member => member.Member)
      match s.mongo.GetPlayerNames playerIDs with
      | (.error err, t2) => ((none, some err), t1 ++ t2)
      | (.ok nameMap, t2) =>
        let playerScores := redisScores.map (mergeEntry nameMap)
        ((some playerScores, none), t1 ++ t2)

/-! ## api: the hub -/

/-- A `*websocket.Conn`, identified by its address. -/
abbrev Conn := Nat

/-- Go `[]byte`. -/
abbrev Bytes := List Nat

/-- Constant `websocket.TextMessage`. -/
def TextMessage : Nat := 1

/-- Hub (hub.go:19). `clients` is the key set of `map[*websocket.Conn]bool`
(every stored value is `true` and no value is ever read). The three channels
are unbuffered and only `Run` receives from them: they are the list of
messages `Run` is given. `mu` is taken by `Run` alone. -/
structure Hub where
  clients : Finset Conn
deriving DecidableEq

/-- NewHub (hub.go:28). -/
def NewHub : Hub := { clients := ∅ }

/-- What `Run` does to connections, in program order. -/
inductive HubEvent where
  /-- Call `client.WriteMessage(messageType, message)` and the error it returned. -/
  | WriteMessage (client : Conn) (messageType : Nat) (message : Bytes) (err : Option Error)
  /-- Call `client.Close()`. -/
  | Close (client : Conn)
  /-- Call `log.Println` or `log.Printf`. -/
  | log (line : String)
deriving DecidableEq, Repr

/-- Is the event a write to `c`. -/
def HubEvent.isWriteTo (c : Conn) : HubEvent → Bool
  | .WriteMessage client _ _ _ => client == c
  | _ => false

/-- Is the event the close of `c`. -/
def HubEvent.isCloseOf (c : Conn) : HubEvent → Bool
  | .Close client => client == c
  | _ => false

/-- Is the event a write. -/
def HubEvent.isWrite : HubEvent → Bool
  | .WriteMessage _ _ _ _ => true
  | _ => false

/-- A value received by `Run` from one of the hub channels. -/
inductive Msg where
  | register (client : Conn)
  | unregister (client : Conn)
  | broadcast (message : Bytes)
deriving DecidableEq, Repr

/-- What the environment decides during one iteration of `Run`: the order in
which `range h.clients` produces the keys (unspecified in Go) and the error
each `WriteMessage` returns. -/
structure Sched where
  order : List Conn
  writeErr : Conn → Option Error

/-- The list `order` is an iteration order of the map with key set `clients`:
every key once. -/
def RangeOrder (order : List Conn) (clients : Finset Conn) : Prop :=
  order.Nodup ∧ order.toFinset = clients

instance (order : List Conn) (clients : Finset Conn) : Decidable (RangeOrder order clients) :=
  inferInstanceAs (Decidable (_ ∧ _))

/-- The loop `for client := range h.clients` of the broadcast case
(hub.go:59-67): `order` is what is left of the iteration, `clients` the
current map. A key deleted before it is reached is not produced. -/
def broadcastRange (message : Bytes) (writeErr : Conn → Option Error) :
    List Conn → Finset Conn → Finset Conn × List HubEvent
  | [], clients => (clients, [])
  | client :: rest, clients =>
    if client ∈ clients then
      match writeErr client with
      | some err =>
        let r := broadcastRange message writeErr rest (clients.erase client)
        (r.1,
          HubEvent.WriteMessage client TextMessage message (some err) ::
          HubEvent.log ("İstemciye mesaj gönderilirken hata: " ++ err ++ ". Bağlantı kaldırılıyor.") ::
          HubEvent.Close client :: r.2)
      | none =>
        let r := broadcastRange message writeErr rest clients
        (r.1, HubEvent.WriteMessage client TextMessage message none :: r.2)
    else
      broadcastRange message writeErr rest clients

/-- One iteration of the loop of `Run` (hub.go:41-69) in which the `select`
received `m`. -/
def Hub.step (h : Hub) (m : Msg) (sc : Sched) : Hub × List HubEvent :=
  match m with
  | .register client =>
    ({ clients := insert client h.clients }, [HubEvent.log "Yeni bir istemci bağlandı."])
  | .unregister client =>
    if client ∈ h.clients then
      ({ clients := h.clients.erase client },
        [HubEvent.Close client, HubEvent.log "Bir istemcinin bağlantısı kesildi."])
    else
      (h, [])
  | .broadcast message =>
    let r := broadcastRange message sc.writeErr sc.order h.clients
    ({ clients := r.1 }, r.2)

/-- Run (hub.go:39), for the finite list of messages received so far. -/
def Hub.Run (h : Hub) : List (Msg × Sched) → Hub × List HubEvent
  | [] => (h, [])
  | (m, sc) :: rest =>
    let r := h.step m sc
    let r2 := Hub.Run r.1 rest
    (r2.1, r.2 ++ r2.2)

/-- The connections registered by a run, in order. -/
def registered : List (Msg × Sched) → List Conn
  | [] => []
  | (.register client, _) :: rest => client :: registered rest
  | (_, _) :: rest => registered rest

/-- BroadcastMessage (hub.go:74): returns nothing; sends `message` on
`h.broadcast`. -/
def Hub.BroadcastMessage (_h : Hub) (message : Bytes) : Unit × List Msg :=
  ((), [Msg.broadcast message])

/-! ## api: the handlers -/

/-- ScorePayload (handlers.go:19). -/
structure ScorePayload where
  PlayerID : String
  Score : Int
deriving DecidableEq, Repr

/-- The parts of `*http.Request` the handler reads: the method, and the result
of decoding the body as JSON into a `ScorePayload`. -/
structure Request where
  Method : String
  Body : Except Error ScorePayload

/-- What the handler wrote to the `http.ResponseWriter`. -/
structure Response where
  status : Nat
  body : String
deriving DecidableEq, Repr

/-- ApiServer (handlers.go:13). -/
structure ApiServer where
  storage : Storage
  hub : Hub

/-- ScoreHandler (handlers.go:30). -/
def ApiServer.ScoreHandler (s : ApiServer) (r : Request) : Response × List Event :=
  if r.Method != "POST" then
    ({ status := 405, body := "Sadece POST metodu kabul edilir.\n" }, [])
  else
    match r.Body with
    | .error _ => ({ status := 400, body := "Geçersiz istek.\n" }, [])
    | .ok payload =>
      let a := s.storage.AddScore payload.PlayerID payload.Score
      match a.1 with
      | some err =>
        ({ status := 500, body := "Sunucu hatası.\n" },
          a.2 ++ [Event.log ("Storage'a skor eklenirken hata oluştu: " ++ err)])
      | none =>
        ({ status := 200, body := "Skor başarıyla alındı ve sıralamaya eklendi." },
          a.2 ++ [Event.print ("Yeni skor işlendi -> Oyuncu ID: " ++ payload.PlayerID ++
                    ", Skor: " ++ toString payload.Score ++ "\n"),
                  Event.go Task.broadcastLeaderboard])

/-! ## Sample stores used to evaluate the definitions -/

/-- A ranking of three players, highest score first. -/
def sampleRanking : List Z :=
  [{ Score := 20, Member := "p2" }, { Score := 15, Member := "p3" }, { Score := 10, Member := "p1" }]

/-- A Redis that accepts every write and answers the range query with
`sampleRanking`. -/
def sampleRedis : RedisStore :=
  { zadd := fun _ _ => none, zrevrangeWithScores := fun _ _ _ => .ok sampleRanking }

/-- A MongoDB that knows "p2" as "Bob" and nobody else. -/
def sampleMongo : MongoStore :=
  { find := fun _ => .ok { docs := [some { PlayerID := "p2", Name := "Bob" }], err := none },
    updateOne := fun _ => none }

/-- A MongoDB that cannot be reached. -/
def downMongo : MongoStore :=
  { find := fun _ => .error "server selection timeout",
    updateOne := fun _ => some "server selection timeout" }

/-- A Redis that cannot be reached. -/
def downRedis : RedisStore :=
  { zadd := fun _ _ => some "connection refused",
    zrevrangeWithScores := fun _ _ _ => .error "connection refused" }

/-- The two sample stores together. -/
def sampleStorage : Storage := { mongo := sampleMongo, redis := sampleRedis }

/-- A store in which "p1" has the empty name and "p2" the default name. -/
def blankNameStorage : Storage :=
  { mongo :=
      { find := fun _ =>
          .ok { docs := [some { PlayerID := "p1", Name := "" },
                         some { PlayerID := "p2", Name := "New Player" }],
                err := none },
        updateOne := fun _ => none },
    redis :=
      { zadd := fun _ _ => none,
        zrevrangeWithScores := fun _ _ _ =>
          .ok [{ Score := 5, Member := "p1" }, { Score := 3, Member := "p2" }] } }

/-- A ranking of ten players. -/
def tenRanking : List Z :=
  [{ Score := 100, Member := "a" }, { Score := 90, Member := "b" },
   { Score := 80, Member := "c" }, { Score := 70, Member := "d" },
   { Score := 60, Member := "e" }, { Score := 50, Member := "f" },
   { Score := 40, Member := "g" }, { Score := 30, Member := "h" },
   { Score := 20, Member := "i" }, { Score := 10, Member := "j" }]

/-- A store with ten ranked players, none of them known to MongoDB. -/
def tenStorage : Storage :=
  { mongo := { find := fun _ => .ok { docs := [], err := none }, updateOne := fun _ => none },
    redis := { zadd := fun _ _ => none, zrevrangeWithScores := fun _ _ _ => .ok tenRanking } }

/-- A hub with the connections 1, 2 and 3 registered. -/
def sampleHub : Hub := { clients := {1, 2, 3} }

/-- An iteration that reaches 3, then 1, then 2, in which only the write to 1
succeeds. -/
def sampleSched : Sched :=
  { order := [3, 1, 2], writeErr := fun c => if c = 1 then none else some "broken pipe" }

/-- An iteration over the empty map. -/
def idleSched : Sched := { order := [], writeErr := fun _ => none }

/-- Connections 1 and 2 register; a broadcast reaches 2, then 1, and the
write to 2 fails. -/
def sampleRunStart : List (Msg × Sched) :=
  [(.register 1, idleSched), (.register 2, idleSched),
   (.broadcast [104, 105],
     { order := [2, 1], writeErr := fun c => if c = 2 then some "broken pipe" else none })]

/-- The deferred `Unregister` of 2 arrives, 3 registers, a second broadcast
is sent, and 1 unregisters twice. -/
def sampleRunRest : List (Msg × Sched) :=
  [(.unregister 2, idleSched), (.register 3, idleSched),
   (.broadcast [98, 121, 101], { order := [3, 1], writeErr := fun _ => none }),
   (.unregister 1, idleSched), (.unregister 1, idleSched)]

/-! ## Lemmas on `Storage.GetLeaderboard` -/

theorem GetLeaderboard_of_redis_error (s : Storage) (err : Error)
    (hr : s.redis.zrevrangeWithScores leaderboardKey 0 9 = .error err) :
    s.GetLeaderboard = ((none, some err), [Event.ZRevRangeWithScores leaderboardKey 0 9]) := by
  simp [Storage.GetLeaderboard, RedisStore.GetLeaderboard, hr]

theorem GetLeaderboard_of_empty (s : Storage)
    (hr : s.redis.zrevrangeWithScores leaderboardKey 0 9 = .ok []) :
    s.GetLeaderboard = ((some [], none), [Event.ZRevRangeWithScores leaderboardKey 0 9]) := by
  simp [Storage.GetLeaderboard, RedisStore.GetLeaderboard, hr]

theorem GetLeaderboard_of_find_error (s : Storage) (r : List Z) (err : Error)
    (hr : s.redis.zrevrangeWithScores leaderboardKey 0 9 = .ok r) (hne : r ≠ [])
    (hf : s.mongo.find (r.map (fun member => member.Member)) = .error err) :
    s.GetLeaderboard =
      ((none, some err),
        [Event.ZRevRangeWithScores leaderboardKey 0 9,
         Event.Find (r.map (fun member => member.Member))]) := by
  simp [Storage.GetLeaderboard, RedisStore.GetLeaderboard, MongoStore.GetPlayerNames, hr, hne, hf]

theorem GetLeaderboard_of_find_ok (s : Storage) (r : List Z) (nameMap : NameMap)
    (hr : s.redis.zrevrangeWithScores leaderboardKey 0 9 = .ok r) (hne : r ≠ [])
    (hm : (s.mongo.GetPlayerNames (r.map (fun member => member.Member))).1 = .ok nameMap) :
    s.GetLeaderboard =
      ((some (r.map (mergeEntry nameMap)), none),
        [Event.ZRevRangeWithScores leaderboardKey 0 9,
         Event.Find (r.map (fun member => member.Member))]) := by
  unfold MongoStore.GetPlayerNames at hm
  unfold Storage.GetLeaderboard RedisStore.GetLeaderboard MongoStore.GetPlayerNames
  cases hf : s.mongo.find (r.map (fun member => member.Member)) with
  | error e => simp [hf] at hm
  | ok cursor =>
    simp only [hf] at hm
    injection hm with hm
    subst hm
    simp [hr, hne, hf]

theorem GetPlayerNames_ok_of_find_ok (ms : MongoStore) (ids : List String)
    (cursor : Cursor) (hf : ms.find ids = .ok cursor) :
    ∃ nameMap, (ms.GetPlayerNames ids).1 = .ok nameMap := by
  simp [MongoStore.GetPlayerNames, hf]

theorem mergeEntry_PlayerID (nameMap : NameMap) (member : Z) :
    (mergeEntry nameMap member).PlayerID = member.Member := rfl

theorem mergeEntry_Score (nameMap : NameMap) (member : Z) :
    (mergeEntry nameMap member).Score = member.Score := rfl

theorem mergeEntry_PlayerName (nameMap : NameMap) (member : Z) :
    (mergeEntry nameMap member).PlayerName =
      if nameMap.index member.Member = "" then "New Player" else nameMap.index member.Member := by
  simp [mergeEntry]

/-! ## C1: the leaderboard keeps the ranking -/

/-- C1: when the Rank Store answers with `r` and the identity lookup succeeds,
`Storage.GetLeaderboard` succeeds with a list as long as `r` whose `i`-th entry
has the PlayerID and the score of `r[i]`; an empty `r` gives the empty list,
and at most 10 ranked players give at most 10 entries. -/
theorem GetLeaderboard_keeps_ranking (s : Storage) (r : List Z)
    (cursor : Cursor)
    (hr : s.redis.zrevrangeWithScores leaderboardKey 0 9 = .ok r)
    (hf : s.mongo.find (r.map (fun member => member.Member)) = .ok cursor) :
    ∃ entries : List PlayerScore,
      s.GetLeaderboard.1 = (some entries, none) ∧
      entries.length = r.length ∧
      (∀ (i : Nat) (h1 : i < entries.length) (h2 : i < r.length),
        entries[i].PlayerID = r[i].Member ∧ entries[i].Score = r[i].Score) ∧
      (r = [] → entries = []) ∧
      (r.length ≤ 10 → entries.length ≤ 10) := by
  by_cases hne : r = []
  · subst hne
    exact ⟨[], by rw [GetLeaderboard_of_empty s hr], rfl, by simp, fun _ => rfl, fun h => h⟩
  · obtain ⟨nameMap, hm⟩ := GetPlayerNames_ok_of_find_ok s.mongo _ cursor hf
    refine ⟨r.map (mergeEntry nameMap), by rw [GetLeaderboard_of_find_ok s r nameMap hr hne hm],
      by simp, ?_, fun h => absurd h hne, by simp⟩
    intro i h1 h2
    simp [mergeEntry_PlayerID, mergeEntry_Score]

/-- C1 at the sample stores: three ranked players, one of them named. -/
theorem GetLeaderboard_keeps_ranking_witness :
    ∃ entries : List PlayerScore,
      sampleStorage.GetLeaderboard.1 = (some entries, none) ∧
      entries.length = sampleRanking.length ∧
      (∀ (i : Nat) (h1 : i < entries.length) (h2 : i < sampleRanking.length),
        entries[i].PlayerID = sampleRanking[i].Member ∧
        entries[i].Score = sampleRanking[i].Score) ∧
      (sampleRanking = [] → entries = []) ∧
      (sampleRanking.length ≤ 10 → entries.length ≤ 10) :=
  GetLeaderboard_keeps_ranking sampleStorage sampleRanking
    { docs := [some { PlayerID := "p2", Name := "Bob" }], err := none } rfl rfl

/-! ## C2: the name of an entry -/

/-- C2 as stated fails: in `blankNameStorage` the PlayerID "p1" is present in
the mapping the lookup returns, with the name "", and its entry is named
"New Player", not ""; and "p2" is present in the mapping and its entry has
the placeholder. -/
theorem GetLeaderboard_name_not_looked_up :
    ∃ (nameMap : NameMap) (e1 e2 : PlayerScore),
      (blankNameStorage.mongo.GetPlayerNames ["p1", "p2"]).1 = .ok nameMap ∧
      blankNameStorage.GetLeaderboard.1 = (some [e1, e2], none) ∧
      e1.PlayerID = "p1" ∧ nameMap.lookup "p1" = some "" ∧ e1.PlayerName ≠ "" ∧
      e2.PlayerID = "p2" ∧ nameMap.has "p2" = true ∧ e2.PlayerName = "New Player" :=
  ⟨[("p2", "New Player"), ("p1", "")],
    { PlayerID := "p1", PlayerName := "New Player", Score := 5 },
    { PlayerID := "p2", PlayerName := "New Player", Score := 3 },
    rfl, rfl, rfl, rfl, by decide, rfl, rfl, rfl⟩

/-- C2, amended: every entry of `Storage.GetLeaderboard` is named by the
looked-up name of its PlayerID when the mapping has a non-empty name for it,
and by "New Player" when the PlayerID is absent from the mapping or mapped to
the empty name; so the name is the placeholder exactly when the PlayerID is
absent, mapped to "" or mapped to "New Player". -/
theorem GetLeaderboard_names (s : Storage) (r : List Z) (nameMap : NameMap)
    (entries : List PlayerScore)
    (hr : s.redis.zrevrangeWithScores leaderboardKey 0 9 = .ok r)
    (hm : (s.mongo.GetPlayerNames (r.map (fun member => member.Member))).1 = .ok nameMap)
    (he : s.GetLeaderboard.1 = (some entries, none)) :
    ∀ e ∈ entries,
      (∀ name, nameMap.lookup e.PlayerID = some name → name ≠ "" → e.PlayerName = name) ∧
      (nameMap.lookup e.PlayerID = some "" → e.PlayerName = "New Player") ∧
      (nameMap.lookup e.PlayerID = none → e.PlayerName = "New Player") ∧
      (e.PlayerName = "New Player" ↔
        nameMap.lookup e.PlayerID = none ∨ nameMap.lookup e.PlayerID = some "" ∨
        nameMap.lookup e.PlayerID = some "New Player") := by
  intro e hmem
  by_cases hne : r = []
  · subst hne
    rw [GetLeaderboard_of_empty s hr] at he
    simp at he
    subst he
    simp at hmem
  · rw [GetLeaderboard_of_find_ok s r nameMap hr hne hm] at he
    simp at he
    subst he
    obtain ⟨member, -, rfl⟩ := List.mem_map.mp hmem
    rw [mergeEntry_PlayerName, mergeEntry_PlayerID]
    unfold NameMap.index
    cases hl : List.lookup member.Member nameMap with
    | none => simp
    | some v =>
      by_cases hv : v = ""
      · subst hv; simp
      · simp [hv]

/-- C2, amended, at the sample stores ("p2" is named "Bob", "p3" is absent
from the mapping) and at the store in which "p1" has the empty name. -/
theorem GetLeaderboard_names_witness :
    (sampleStorage.mongo.GetPlayerNames ["p2", "p3", "p1"]).1 = .ok [("p2", "Bob")] ∧
    sampleStorage.GetLeaderboard.1 =
      (some [{ PlayerID := "p2", PlayerName := "Bob", Score := 20 },
             { PlayerID := "p3", PlayerName := "New Player", Score := 15 },
             { PlayerID := "p1", PlayerName := "New Player", Score := 10 }], none) ∧
    ({ PlayerID := "p2", PlayerName := "Bob", Score := 20 } : PlayerScore).PlayerName = "Bob" ∧
    ({ PlayerID := "p3", PlayerName := "New Player", Score := 15 } : PlayerScore).PlayerName =
      "New Player" ∧
    ({ PlayerID := "p1", PlayerName := "New Player", Score := 5 } : PlayerScore).PlayerName =
      "New Player" :=
  ⟨rfl, rfl,
   (GetLeaderboard_names sampleStorage sampleRanking [("p2", "Bob")]
      [{ PlayerID := "p2", PlayerName := "Bob", Score := 20 },
       { PlayerID := "p3", PlayerName := "New Player", Score := 15 },
       { PlayerID := "p1", PlayerName := "New Player", Score := 10 }] rfl rfl rfl
      { PlayerID := "p2", PlayerName := "Bob", Score := 20 }
      (List.mem_cons_self _ _)).1 "Bob" rfl (by decide),
   (GetLeaderboard_names sampleStorage sampleRanking [("p2", "Bob")]
      [{ PlayerID := "p2", PlayerName := "Bob", Score := 20 },
       { PlayerID := "p3", PlayerName := "New Player", Score := 15 },
       { PlayerID := "p1", PlayerName := "New Player", Score := 10 }] rfl rfl rfl
      { PlayerID := "p3", PlayerName := "New Player", Score := 15 }
      (List.mem_cons_of_mem _ (List.mem_cons_self _ _))).2.2.1 rfl,
   (GetLeaderboard_names blankNameStorage
      [{ Score := 5, Member := "p1" }, { Score := 3, Member := "p2" }]
      [("p2", "New Player"), ("p1", "")]
      [{ PlayerID := "p1", PlayerName := "New Player", Score := 5 },
       { PlayerID := "p2", PlayerName := "New Player", Score := 3 }] rfl rfl rfl
      { PlayerID := "p1", PlayerName := "New Player", Score := 5 }
      (List.mem_cons_self _ _)).2.1 rfl⟩

/-! ## C6: failures of `Storage.GetLeaderboard` -/

/-- C7: a run of `Storage.GetLeaderboard` issues at most one `Find`, and for a
non-empty ranking exactly one, whatever the size of the ranking and whatever
the lookup answers; that one call is given the PlayerID of every ranked
player, in order. -/
theorem GetLeaderboard_one_batched_lookup (s : Storage) :
    (s.GetLeaderboard.2.filter Event.isFind).length ≤ 1 ∧
    (∀ r, s.redis.zrevrangeWithScores leaderboardKey 0 9 = .ok r → r ≠ [] →
      s.GetLeaderboard.2.filter Event.isFind =
        [Event.Find (r.map (fun member => member.Member))] ∧
      (r.map (fun member => member.Member)).length = r.length) := by
  cases hr : s.redis.zrevrangeWithScores leaderboardKey 0 9 with
  | error e =>
    rw [GetLeaderboard_of_redis_error s e hr]
    simp [Event.isFind]
  | ok r =>
    by_cases hne : r = []
    · subst hne
      rw [GetLeaderboard_of_empty s hr]
      simp [Event.isFind]
    · cases hf : s.mongo.find (r.map (fun member => member.Member)) with
      | error e =>
        rw [GetLeaderboard_of_find_error s r e hr hne hf]
        simp [Event.isFind]
      | ok cursor =>
        obtain ⟨nameMap, hm⟩ := GetPlayerNames_ok_of_find_ok s.mongo _ cursor hf
        rw [GetLeaderboard_of_find_ok s r nameMap hr hne hm]
        simp [Event.isFind]

/-- C7 at ten ranked players: one `Find`, carrying the ten PlayerIDs. -/
theorem GetLeaderboard_one_batched_lookup_witness :
    tenStorage.GetLeaderboard.2.filter Event.isFind =
      [Event.Find ["a", "b", "c", "d", "e", "f", "g", "h", "i", "j"]] ∧
    (tenRanking.map (fun member => member.Member)).length = tenRanking.length :=
  (GetLeaderboard_one_batched_lookup tenStorage).2 tenRanking rfl (by simp [tenRanking])

/-! ## C5: the empty PlayerID -/

/-- C5 as stated fails: with a Redis that accepts the write, `Storage.AddScore`
for the PlayerID "" returns no error after starting the provisioning of ""
and writing the member "" to the sorted set; the started goroutine upserts
the player ""; and `ScoreHandler` answers 200. -/
theorem empty_PlayerID_is_accepted :
    sampleStorage.AddScore "" 7 =
      (none,
        [Event.go (Task.CreatePlayerIfNotExists ""),
         Event.ZAdd "leaderboard" { Score := Float.ofInt 7, Member := "" }]) ∧
    sampleStorage.mongo.CreatePlayerIfNotExists "" = [Event.UpdateOne "" "New Player"] ∧
    (ApiServer.ScoreHandler { storage := sampleStorage, hub := NewHub }
      { Method := "POST", Body := .ok { PlayerID := "", Score := 7 } }).1.status = 200 :=
  ⟨rfl, rfl, by decide⟩

/-- C5, amended: for every score, the empty PlayerID is handled like any
other: `Storage.AddScore` starts the identity provisioning of "", performs
the Rank Store upsert of "" and returns the result of that upsert; the
`ScoreHandler` answers 200 when the upsert succeeds and 500 when it fails. -/
theorem AddScore_empty_PlayerID (s : Storage) (score : Int) :
    s.AddScore "" score =
      (s.redis.zadd leaderboardKey { Score := Float.ofInt score, Member := "" },
        [Event.go (Task.CreatePlayerIfNotExists ""),
         Event.ZAdd leaderboardKey { Score := Float.ofInt score, Member := "" }]) ∧
    (∀ hub, s.redis.zadd leaderboardKey { Score := Float.ofInt score, Member := "" } = none →
      (ApiServer.ScoreHandler { storage := s, hub := hub }
        { Method := "POST", Body := .ok { PlayerID := "", Score := score } }).1.status = 200) ∧
    (∀ hub err,
      s.redis.zadd leaderboardKey { Score := Float.ofInt score, Member := "" } = some err →
      (ApiServer.ScoreHandler { storage := s, hub := hub }
        { Method := "POST", Body := .ok { PlayerID := "", Score := score } }).1.status = 500) := by
  refine ⟨rfl, ?_, ?_⟩
  · intro hub h
    simp [ApiServer.ScoreHandler, Storage.AddScore, RedisStore.AddScore, h]
  · intro hub err h
    simp [ApiServer.ScoreHandler, Storage.AddScore, RedisStore.AddScore, h]

/-- C5, amended, at a Redis that accepts the write and at one that is down. -/
theorem AddScore_empty_PlayerID_witness :
    (ApiServer.ScoreHandler { storage := sampleStorage, hub := NewHub }
      { Method := "POST", Body := .ok { PlayerID := "", Score := 7 } }).1.status = 200 ∧
    (ApiServer.ScoreHandler
      { storage := { mongo := sampleMongo, redis := downRedis }, hub := NewHub }
      { Method := "POST", Body := .ok { PlayerID := "", Score := 7 } }).1.status = 500 :=
  ⟨(AddScore_empty_PlayerID sampleStorage 7).2.1 NewHub rfl,
   (AddScore_empty_PlayerID { mongo := sampleMongo, redis := downRedis } 7).2.2 NewHub
     "connection refused" rfl⟩

/-! ## C8: the result of `AddScore` is the result of the upsert -/

/-- C8: for every PlayerID and score, `Storage.AddScore` returns the result of
the Rank Store upsert, whatever the Identity Store is: two storages with the
same Redis return the same result, so it is `nil` exactly when the upsert
succeeds. The provisioning is only started (`go`); nothing it does is part
of what `AddScore` returns or issues itself. -/
theorem AddScore_result_is_upsert_result (redis : RedisStore) (mongo1 mongo2 : MongoStore)
    (playerID : String) (score : Int) :
    (Storage.AddScore { mongo := mongo1, redis := redis } playerID score).1 =
      redis.zadd leaderboardKey { Score := Float.ofInt score, Member := playerID } ∧
    (Storage.AddScore { mongo := mongo1, redis := redis } playerID score).1 =
      (redis.AddScore playerID score).1 ∧
    Storage.AddScore { mongo := mongo1, redis := redis } playerID score =
      Storage.AddScore { mongo := mongo2, redis := redis } playerID score ∧
    ((Storage.AddScore { mongo := mongo1, redis := redis } playerID score).1 = none ↔
      (redis.AddScore playerID score).1 = none) ∧
    (Storage.AddScore { mongo := mongo1, redis := redis } playerID score).2 =
      Event.go (Task.CreatePlayerIfNotExists playerID) :: (redis.AddScore playerID score).2 :=
  ⟨rfl, rfl, rfl, Iff.rfl, rfl⟩

/-- C8 at an unreachable MongoDB: the provisioning fails and is logged, and
`AddScore` returns `nil` with a Redis that accepts the write, and the error
with a Redis that is down. -/
theorem AddScore_result_is_upsert_result_witness :
    downMongo.CreatePlayerIfNotExists "p9" =
      [Event.UpdateOne "p9" "New Player",
       Event.log "Oyuncu oluşturulurken/kontrol edilirken hata: server selection timeout"] ∧
    (Storage.AddScore { mongo := downMongo, redis := sampleRedis } "p9" 100).1 = none ∧
    (Storage.AddScore { mongo := sampleMongo, redis := downRedis } "p9" 100).1 =
      some "connection refused" :=
  ⟨by simp [MongoStore.CreatePlayerIfNotExists, downMongo],
   (AddScore_result_is_upsert_result sampleRedis downMongo sampleMongo "p9" 100).1,
   (AddScore_result_is_upsert_result downRedis sampleMongo downMongo "p9" 100).1⟩

/-! ## Lemmas on the broadcast loop -/

theorem broadcastRange_skip (message : Bytes) (we : Conn → Option Error) (client : Conn)
    (rest : List Conn) (clients : Finset Conn) (h : client ∉ clients) :
    broadcastRange message we (client :: rest) clients =
      broadcastRange message we rest clients := by
  simp [broadcastRange, h]

theorem broadcastRange_sent (message : Bytes) (we : Conn → Option Error) (client : Conn)
    (rest : List Conn) (clients : Finset Conn) (h : client ∈ clients) (hw : we client = none) :
    broadcastRange message we (client :: rest) clients =
      ((broadcastRange message we rest clients).1,
        HubEvent.WriteMessage client TextMessage message none ::
          (broadcastRange message we rest clients).2) := by
  simp [broadcastRange, h, hw]

theorem broadcastRange_evict (message : Bytes) (we : Conn → Option Error) (client : Conn)
    (rest : List Conn) (clients : Finset Conn) (err : Error) (h : client ∈ clients)
    (hw : we client = some err) :
    broadcastRange message we (client :: rest) clients =
      ((broadcastRange message we rest (clients.erase client)).1,
        HubEvent.WriteMessage client TextMessage message (some err) ::
        HubEvent.log ("İstemciye mesaj gönderilirken hata: " ++ err ++ ". Bağlantı kaldırılıyor.") ::
        HubEvent.Close client ::
          (broadcastRange message we rest (clients.erase client)).2) := by
  simp [broadcastRange, h, hw]

/-- The map after the loop: the keys reached with a failing write are gone. -/
theorem broadcastRange_clients (message : Bytes) (we : Conn → Option Error) :
    ∀ (order : List Conn) (clients : Finset Conn),
      (broadcastRange message we order clients).1 =
        clients.filter (fun c => ¬ (c ∈ order ∧ we c ≠ none)) := by
  intro order
  induction order with
  | nil => intro clients; simp [broadcastRange]
  | cons client rest ih =>
    intro clients
    by_cases h : client ∈ clients
    · cases hw : we client with
      | none =>
        rw [broadcastRange_sent message we client rest clients h hw, ih]
        ext c
        simp only [Finset.mem_filter, List.mem_cons]
        constructor
        · rintro ⟨hc, hn⟩
          refine ⟨hc, ?_⟩
          rintro ⟨rfl | hr, hne⟩
          · exact hne hw
          · exact hn ⟨hr, hne⟩
        · rintro ⟨hc, hn⟩
          exact ⟨hc, fun ⟨hr, hne⟩ => hn ⟨Or.inr hr, hne⟩⟩
      | some err =>
        rw [broadcastRange_evict message we client rest clients err h hw, ih]
        ext c
        simp only [Finset.mem_filter, Finset.mem_erase, List.mem_cons]
        constructor
        · rintro ⟨⟨hcc, hc⟩, hn⟩
          refine ⟨hc, ?_⟩
          rintro ⟨rfl | hr, hne⟩
          · exact hcc rfl
          · exact hn ⟨hr, hne⟩
        · rintro ⟨hc, hn⟩
          refine ⟨⟨?_, hc⟩, fun ⟨hr, hne⟩ => hn ⟨Or.inr hr, hne⟩⟩
          rintro rfl
          exact hn ⟨Or.inl rfl, by simp [hw]⟩
    · rw [broadcastRange_skip message we client rest clients h, ih]
      ext c
      simp only [Finset.mem_filter, List.mem_cons]
      constructor
      · rintro ⟨hc, hn⟩
        refine ⟨hc, ?_⟩
        rintro ⟨rfl | hr, hne⟩
        · exact h hc
        · exact hn ⟨hr, hne⟩
      · rintro ⟨hc, hn⟩
        exact ⟨hc, fun ⟨hr, hne⟩ => hn ⟨Or.inr hr, hne⟩⟩

theorem broadcastRange_subset (message : Bytes) (we : Conn → Option Error)
    (order : List Conn) (clients : Finset Conn) (c : Conn)
    (hc : c ∈ (broadcastRange message we order clients).1) : c ∈ clients := by
  rw [broadcastRange_clients] at hc
  exact (Finset.mem_filter.mp hc).1

/-- The writes of the loop, in order: one to each key of the iteration order
that is in the map. -/
theorem broadcastRange_writes (message : Bytes) (we : Conn → Option Error) :
    ∀ (order : List Conn) (clients : Finset Conn), order.Nodup →
      (broadcastRange message we order clients).2.filter HubEvent.isWrite =
        (order.filter (fun c => decide (c ∈ clients))).map
          (fun c => HubEvent.WriteMessage c TextMessage message (we c)) := by
  intro order
  induction order with
  | nil => intro clients _; simp [broadcastRange]
  | cons client rest ih =>
    intro clients hnd
    obtain ⟨hnotin, hnd2⟩ := List.nodup_cons.mp hnd
    by_cases h : client ∈ clients
    · cases hw : we client with
      | none =>
        rw [broadcastRange_sent message we client rest clients h hw]
        simp [HubEvent.isWrite, h, hw, ih clients hnd2]
      | some err =>
        rw [broadcastRange_evict message we client rest clients err h hw]
        have hfil : rest.filter (fun c => decide (c ∈ clients.erase client)) =
            rest.filter (fun c => decide (c ∈ clients)) := by
          apply List.filter_congr
          intro x hx
          have : x ≠ client := fun hxc => hnotin (hxc ▸ hx)
          simp [Finset.mem_erase, this]
        simp only [List.filter_cons, HubEvent.isWrite, h, decide_True, if_true, List.map_cons,
          ih (clients.erase client) hnd2, hfil, hw]
        simp
    · rw [broadcastRange_skip message we client rest clients h]
      simp [h, ih clients hnd2]

/-- The loop closes `c` once when it removes `c`, and not at all otherwise. -/
theorem broadcastRange_closes (message : Bytes) (we : Conn → Option Error) (c : Conn) :
    ∀ (order : List Conn) (clients : Finset Conn),
      (broadcastRange message we order clients).2.countP (HubEvent.isCloseOf c) =
        if c ∈ clients ∧ c ∉ (broadcastRange message we order clients).1 then 1 else 0 := by
  intro order
  induction order with
  | nil => intro clients; simp [broadcastRange]
  | cons client rest ih =>
    intro clients
    by_cases h : client ∈ clients
    · cases hw : we client with
      | none =>
        rw [broadcastRange_sent message we client rest clients h hw]
        simp [List.countP_cons, HubEvent.isCloseOf, ih clients]
      | some err =>
        rw [broadcastRange_evict message we client rest clients err h hw]
        simp only [List.countP_cons, HubEvent.isCloseOf, ih (clients.erase client)]
        by_cases hcc : client = c
        · subst hcc
          have hout : client ∉ (broadcastRange message we rest (clients.erase client)).1 :=
            fun hin => by
              have := broadcastRange_subset message we rest _ client hin
              simp at this
          simp [h, hout]
        · have hcc2 : c ≠ client := fun hx => hcc hx.symm
          simp [hcc, hcc2, Finset.mem_erase]
    · rw [broadcastRange_skip message we client rest clients h]
      exact ih clients

/-- The loop writes to and closes only keys of the map. -/
theorem broadcastRange_touches (message : Bytes) (we : Conn → Option Error) (c : Conn) :
    ∀ (order : List Conn) (clients : Finset Conn), c ∉ clients →
      ∀ e ∈ (broadcastRange message we order clients).2,
        e.isWriteTo c = false ∧ e.isCloseOf c = false := by
  intro order
  induction order with
  | nil => intro clients _ e he; simp [broadcastRange] at he
  | cons client rest ih =>
    intro clients hc e he
    by_cases h : client ∈ clients
    · have hne : client ≠ c := fun hx => hc (hx ▸ h)
      cases hw : we client with
      | none =>
        rw [broadcastRange_sent message we client rest clients h hw] at he
        simp only [List.mem_cons] at he
        rcases he with rfl | he
        · simp [HubEvent.isWriteTo, HubEvent.isCloseOf, hne]
        · exact ih clients hc e he
      | some err =>
        rw [broadcastRange_evict message we client rest clients err h hw] at he
        simp only [List.mem_cons] at he
        rcases he with rfl | rfl | rfl | he
        · simp [HubEvent.isWriteTo, HubEvent.isCloseOf, hne]
        · simp [HubEvent.isWriteTo, HubEvent.isCloseOf]
        · simp [HubEvent.isWriteTo, HubEvent.isCloseOf, hne]
        · exact ih (clients.erase client) (fun hx => hc (Finset.mem_of_mem_erase hx)) e he
    · rw [broadcastRange_skip message we client rest clients h] at he
      exact ih clients hc e he

theorem step_broadcast_clients (h : Hub) (message : Bytes) (sc : Sched) :
    (h.step (.broadcast message) sc).1.clients =
      h.clients.filter (fun c => ¬ (c ∈ sc.order ∧ sc.writeErr c ≠ none)) := by
  simp only [Hub.step]
  exact broadcastRange_clients message sc.writeErr sc.order h.clients

theorem step_broadcast_events (h : Hub) (message : Bytes) (sc : Sched) :
    (h.step (.broadcast message) sc).2 =
      (broadcastRange message sc.writeErr sc.order h.clients).2 := rfl

theorem rangeOrder_mem {order : List Conn} {clients : Finset Conn}
    (hord : RangeOrder order clients) (c : Conn) : c ∈ order ↔ c ∈ clients := by
  rw [← hord.2, List.mem_toFinset]

theorem step_broadcast_writes (h : Hub) (message : Bytes) (sc : Sched)
    (hord : RangeOrder sc.order h.clients) :
    (h.step (.broadcast message) sc).2.filter HubEvent.isWrite =
      sc.order.map (fun c => HubEvent.WriteMessage c TextMessage message (sc.writeErr c)) := by
  rw [step_broadcast_events, broadcastRange_writes message sc.writeErr sc.order h.clients hord.1]
  congr 1
  rw [List.filter_eq_self]
  intro c hc
  simpa using (rangeOrder_mem hord c).mp hc

theorem step_broadcast_write_mem (h : Hub) (message : Bytes) (sc : Sched)
    (hord : RangeOrder sc.order h.clients) (c : Conn) (mt : Nat) (m : Bytes)
    (err : Option Error) :
    HubEvent.WriteMessage c mt m err ∈ (h.step (.broadcast message) sc).2 ↔
      c ∈ h.clients ∧ mt = TextMessage ∧ m = message ∧ err = sc.writeErr c := by
  have hw : HubEvent.WriteMessage c mt m err ∈ (h.step (.broadcast message) sc).2 ↔
      HubEvent.WriteMessage c mt m err ∈
        (h.step (.broadcast message) sc).2.filter HubEvent.isWrite := by
    simp [List.mem_filter, HubEvent.isWrite]
  rw [hw, step_broadcast_writes h message sc hord, List.mem_map]
  constructor
  · rintro ⟨x, hx, heq⟩
    injection heq with h1 h2 h3 h4
    subst h1
    exact ⟨(rangeOrder_mem hord x).mp hx, h2.symm, h3.symm, h4.symm⟩
  · rintro ⟨hc, rfl, rfl, rfl⟩
    exact ⟨c, (rangeOrder_mem hord c).mpr hc, rfl⟩

/-! ## C3: a broadcast evicts exactly the connections whose write failed -/

/-- C3: for every Registry, payload, iteration order and write outcomes, after
one broadcast the Registry is the previous Registry without the connections
whose write failed: a connection is registered afterwards exactly when it was
registered before and no failed write to it was made; none is added. -/
theorem broadcast_evicts_failed (h : Hub) (message : Bytes) (sc : Sched)
    (hord : RangeOrder sc.order h.clients) :
    (h.step (.broadcast message) sc).1.clients =
      h.clients.filter (fun c => sc.writeErr c = none) ∧
    (∀ c, c ∈ (h.step (.broadcast message) sc).1.clients ↔
      c ∈ h.clients ∧
      ¬ ∃ err, HubEvent.WriteMessage c TextMessage message (some err) ∈
        (h.step (.broadcast message) sc).2) ∧
    (∀ c err, HubEvent.WriteMessage c TextMessage message (some err) ∈
        (h.step (.broadcast message) sc).2 →
      c ∉ (h.step (.broadcast message) sc).1.clients) ∧
    (∀ c, HubEvent.WriteMessage c TextMessage message none ∈
        (h.step (.broadcast message) sc).2 →
      c ∈ (h.step (.broadcast message) sc).1.clients) ∧
    (∀ c, c ∈ (h.step (.broadcast message) sc).1.clients → c ∈ h.clients) := by
  have hcl : (h.step (.broadcast message) sc).1.clients =
      h.clients.filter (fun c => sc.writeErr c = none) := by
    rw [step_broadcast_clients]
    ext c
    simp only [Finset.mem_filter]
    constructor
    · rintro ⟨hc, hn⟩
      refine ⟨hc, ?_⟩
      by_contra hne
      exact hn ⟨(rangeOrder_mem hord c).mpr hc, hne⟩
    · rintro ⟨hc, hn⟩
      exact ⟨hc, fun ⟨_, hne⟩ => hne hn⟩
  refine ⟨hcl, ?_, ?_, ?_, ?_⟩
  · intro c
    rw [hcl, Finset.mem_filter]
    constructor
    · rintro ⟨hc, hn⟩
      refine ⟨hc, ?_⟩
      rintro ⟨err, he⟩
      have := ((step_broadcast_write_mem h message sc hord c _ _ _).mp he).2.2.2
      rw [hn] at this
      cases this
    · rintro ⟨hc, hn⟩
      refine ⟨hc, ?_⟩
      cases hw : sc.writeErr c with
      | none => rfl
      | some err =>
        exact absurd ⟨err, (step_broadcast_write_mem h message sc hord c _ _ _).mpr
          ⟨hc, rfl, rfl, hw.symm⟩⟩ hn
  · intro c err he
    have hm := (step_broadcast_write_mem h message sc hord c _ _ _).mp he
    rw [hcl, Finset.mem_filter]
    rintro ⟨_, hn⟩
    rw [hn] at hm
    cases hm.2.2.2
  · intro c he
    have hm := (step_broadcast_write_mem h message sc hord c _ _ _).mp he
    rw [hcl, Finset.mem_filter]
    exact ⟨hm.1, hm.2.2.2.symm⟩
  · intro c hc
    rw [hcl, Finset.mem_filter] at hc
    exact hc.1

/-- C3 at the hub {1, 2, 3} when the writes to 3 and 2 fail: only 1 is left. -/
theorem broadcast_evicts_failed_witness :
    RangeOrder sampleSched.order sampleHub.clients ∧
    (sampleHub.step (.broadcast [104, 105]) sampleSched).1.clients = {1} :=
  ⟨by decide,
   (broadcast_evicts_failed sampleHub [104, 105] sampleSched (by decide)).1.trans (by decide)⟩

/-! ## C4: a broadcast writes the payload once to every registered connection -/

/-- C4: for every Registry, payload, iteration order and write outcomes, one
broadcast makes exactly one write to each connection registered at its start,
in iteration order, whether or not earlier writes failed; every write made
carries the payload as a text message and goes to a registered connection;
and `BroadcastMessage` returns nothing to its caller, it only hands the
payload to `Run`. -/
theorem broadcast_writes_each_once (h : Hub) (message : Bytes) (sc : Sched)
    (hord : RangeOrder sc.order h.clients) :
    (h.step (.broadcast message) sc).2.filter HubEvent.isWrite =
      sc.order.map (fun c => HubEvent.WriteMessage c TextMessage message (sc.writeErr c)) ∧
    (∀ c, (h.step (.broadcast message) sc).2.countP (HubEvent.isWriteTo c) =
      if c ∈ h.clients then 1 else 0) ∧
    (∀ c mt m err, HubEvent.WriteMessage c mt m err ∈ (h.step (.broadcast message) sc).2 →
      c ∈ h.clients ∧ mt = TextMessage ∧ m = message) ∧
    h.BroadcastMessage message = ((), [Msg.broadcast message]) := by
  refine ⟨step_broadcast_writes h message sc hord, ?_, ?_, rfl⟩
  · intro c
    have h1 : (h.step (.broadcast message) sc).2.countP (HubEvent.isWriteTo c) =
        ((h.step (.broadcast message) sc).2.filter HubEvent.isWrite).countP
          (HubEvent.isWriteTo c) := by
      rw [List.countP_filter]
      apply List.countP_congr
      intro e _
      cases e <;> simp [HubEvent.isWriteTo, HubEvent.isWrite]
    rw [h1, step_broadcast_writes h message sc hord, List.countP_map]
    have h2 : (HubEvent.isWriteTo c ∘
        fun c => HubEvent.WriteMessage c TextMessage message (sc.writeErr c)) =
        fun x => x == c := by
      funext x
      simp [HubEvent.isWriteTo]
    rw [h2]
    have h3 : List.countP (fun x => x == c) sc.order = sc.order.count c := by
      simp [List.count]
    rw [h3]
    by_cases hc : c ∈ h.clients
    · rw [if_pos hc]
      exact List.count_eq_one_of_mem hord.1 ((rangeOrder_mem hord c).mpr hc)
    · rw [if_neg hc]
      exact List.count_eq_zero_of_not_mem (fun hx => hc ((rangeOrder_mem hord c).mp hx))
  · intro c mt m err he
    have hm := (step_broadcast_write_mem h message sc hord c mt m err).mp he
    exact ⟨hm.1, hm.2.1, hm.2.2.1⟩

/-- C4 at the hub {1, 2, 3} when the first and the last write fail: three
writes, one to each connection. -/
theorem broadcast_writes_each_once_witness :
    RangeOrder sampleSched.order sampleHub.clients ∧
    (sampleHub.step (.broadcast [104, 105]) sampleSched).2.filter HubEvent.isWrite =
      [HubEvent.WriteMessage 3 1 [104, 105] (some "broken pipe"),
       HubEvent.WriteMessage 1 1 [104, 105] none,
       HubEvent.WriteMessage 2 1 [104, 105] (some "broken pipe")] :=
  ⟨by decide,
   (broadcast_writes_each_once sampleHub [104, 105] sampleSched (by decide)).1.trans
     (by decide)⟩

/-! ## C9: unregistering is idempotent -/

theorem step_unregister_absent (h : Hub) (c : Conn) (sc : Sched) (hc : c ∉ h.clients) :
    h.step (.unregister c) sc = (h, []) := by
  simp [Hub.step, hc]

theorem step_unregister_present (h : Hub) (c : Conn) (sc : Sched) (hc : c ∈ h.clients) :
    h.step (.unregister c) sc =
      ({ clients := h.clients.erase c },
        [HubEvent.Close c, HubEvent.log "Bir istemcinin bağlantısı kesildi."]) := by
  simp [Hub.step, hc]

theorem step_unregister_clients (h : Hub) (c : Conn) (sc : Sched) :
    (h.step (.unregister c) sc).1.clients = h.clients.erase c := by
  by_cases hc : c ∈ h.clients
  · rw [step_unregister_present h c sc hc]
  · rw [step_unregister_absent h c sc hc, Finset.erase_eq_of_not_mem hc]

/-- C9: processing `Unregister(c)` when `c` is not registered (never was,
was unregistered before, or was evicted by a failed broadcast write) leaves
the hub as it is and closes nothing, so a second `Unregister(c)` adds
nothing to the first; when `c` is registered it is closed once and removed,
and every other connection stays as it was. -/
theorem unregister_idempotent (h : Hub) (c : Conn) (sc sc2 : Sched) :
    (c ∉ h.clients → h.step (.unregister c) sc = (h, [])) ∧
    (h.step (.unregister c) sc).1.step (.unregister c) sc2 =
      ((h.step (.unregister c) sc).1, []) ∧
    h.Run [(.unregister c, sc), (.unregister c, sc2)] = h.Run [(.unregister c, sc)] ∧
    (∀ message, sc.writeErr c ≠ none → RangeOrder sc.order h.clients →
      (h.step (.broadcast message) sc).1.step (.unregister c) sc2 =
        ((h.step (.broadcast message) sc).1, [])) ∧
    (c ∈ h.clients →
      (h.step (.unregister c) sc).1.clients = h.clients.erase c ∧
      (h.step (.unregister c) sc).2 =
        [HubEvent.Close c, HubEvent.log "Bir istemcinin bağlantısı kesildi."]) ∧
    (∀ c2, c2 ≠ c → (c2 ∈ (h.step (.unregister c) sc).1.clients ↔ c2 ∈ h.clients)) := by
  have hgone : c ∉ (h.step (.unregister c) sc).1.clients := by
    rw [step_unregister_clients]
    simp
  refine ⟨step_unregister_absent h c sc, step_unregister_absent _ c sc2 hgone, ?_, ?_, ?_, ?_⟩
  · simp [Hub.Run, step_unregister_absent _ c sc2 hgone]
  · intro message hw hord
    apply step_unregister_absent
    rw [step_broadcast_clients, Finset.mem_filter]
    rintro ⟨hc, hn⟩
    exact hn ⟨(rangeOrder_mem hord c).mpr hc, hw⟩
  · intro hc
    rw [step_unregister_present h c sc hc]
    exact ⟨rfl, rfl⟩
  · intro c2 hne
    rw [step_unregister_clients, Finset.mem_erase]
    exact ⟨fun hx => hx.2, fun hx => ⟨hne, hx⟩⟩

/-- C9 at the hub {1, 2, 3}: unregistering 2 closes it and leaves {1, 3};
unregistering 2 again, or unregistering 3 after the broadcast that evicted
it, changes nothing and closes nothing. -/
theorem unregister_idempotent_witness :
    sampleHub.step (.unregister 2) idleSched =
      ({ clients := {1, 3} },
        [HubEvent.Close 2, HubEvent.log "Bir istemcinin bağlantısı kesildi."]) ∧
    (sampleHub.step (.unregister 2) idleSched).1.step (.unregister 2) idleSched =
      ((sampleHub.step (.unregister 2) idleSched).1, []) ∧
    (sampleHub.step (.broadcast [104, 105]) sampleSched).1.step (.unregister 3) idleSched =
      ((sampleHub.step (.broadcast [104, 105]) sampleSched).1, []) :=
  ⟨by decide,
   (unregister_idempotent sampleHub 2 idleSched idleSched).2.1,
   (unregister_idempotent sampleHub 3 sampleSched idleSched).2.2.2.1 [104, 105]
     (by decide) (by decide)⟩

/-! ## C10: a removed connection is never touched again -/

theorem Run_append (h : Hub) (pre post : List (Msg × Sched)) :
    h.Run (pre ++ post) =
      (((h.Run pre).1.Run post).1, (h.Run pre).2 ++ ((h.Run pre).1.Run post).2) := by
  induction pre generalizing h with
  | nil => simp [Hub.Run]
  | cons s rest ih =>
    obtain ⟨m, sc⟩ := s
    simp [Hub.Run, ih]

theorem registered_append (pre post : List (Msg × Sched)) :
    registered (pre ++ post) = registered pre ++ registered post := by
  induction pre with
  | nil => rfl
  | cons s rest ih =>
    obtain ⟨m, sc⟩ := s
    cases m <;> simp [registered, ih]

theorem step_register (h : Hub) (c : Conn) (sc : Sched) :
    h.step (.register c) sc =
      ({ clients := insert c h.clients }, [HubEvent.log "Yeni bir istemci bağlandı."]) := rfl

/-- One iteration writes to and closes only registered connections. -/
theorem step_touches (h : Hub) (m : Msg) (sc : Sched) (c : Conn) (hc : c ∉ h.clients) :
    ∀ e ∈ (h.step m sc).2, e.isWriteTo c = false ∧ e.isCloseOf c = false := by
  intro e he
  cases m with
  | register c0 =>
    rw [step_register] at he
    simp at he
    subst he
    simp [HubEvent.isWriteTo, HubEvent.isCloseOf]
  | unregister c0 =>
    by_cases h0 : c0 ∈ h.clients
    · rw [step_unregister_present h c0 sc h0] at he
      have hne : c0 ≠ c := fun hx => hc (hx ▸ h0)
      simp at he
      rcases he with rfl | rfl <;> simp [HubEvent.isWriteTo, HubEvent.isCloseOf, hne]
    · rw [step_unregister_absent h c0 sc h0] at he
      simp at he
  | broadcast message =>
    rw [step_broadcast_events] at he
    exact broadcastRange_touches message sc.writeErr c sc.order h.clients hc e he

/-- One iteration adds only the connection it registers. -/
theorem step_mem (h : Hub) (m : Msg) (sc : Sched) (c : Conn)
    (hc : c ∈ (h.step m sc).1.clients) : c ∈ h.clients ∨ m = .register c := by
  cases m with
  | register c0 =>
    rw [step_register] at hc
    simp only [Finset.mem_insert] at hc
    rcases hc with rfl | hc
    · exact Or.inr rfl
    · exact Or.inl hc
  | unregister c0 =>
    rw [step_unregister_clients] at hc
    exact Or.inl (Finset.mem_of_mem_erase hc)
  | broadcast message =>
    rw [step_broadcast_clients] at hc
    exact Or.inl (Finset.mem_filter.mp hc).1

/-- One iteration closes `c` once when it removes `c`, and not at all otherwise. -/
theorem step_closes (h : Hub) (m : Msg) (sc : Sched) (c : Conn) :
    (h.step m sc).2.countP (HubEvent.isCloseOf c) =
      if c ∈ h.clients ∧ c ∉ (h.step m sc).1.clients then 1 else 0 := by
  cases m with
  | register c0 =>
    rw [step_register]
    have : ¬ (c ∈ h.clients ∧ c ∉ insert c0 h.clients) :=
      fun hx => hx.2 (Finset.mem_insert_of_mem hx.1)
    rw [if_neg this]
    simp [HubEvent.isCloseOf]
  | unregister c0 =>
    by_cases h0 : c0 ∈ h.clients
    · rw [step_unregister_present h c0 sc h0]
      by_cases hcc : c0 = c
      · subst hcc
        simp [HubEvent.isCloseOf, h0]
      · have hcc2 : c ≠ c0 := fun hx => hcc hx.symm
        simp [HubEvent.isCloseOf, hcc, hcc2, Finset.mem_erase]
    · rw [step_unregister_absent h c0 sc h0]
      simp
  | broadcast message =>
    exact broadcastRange_closes message sc.writeErr c sc.order h.clients

/-- A connection that is neither registered now nor registered later is not
touched by the run and is not registered at its end. -/
theorem Run_untouched (c : Conn) :
    ∀ (steps : List (Msg × Sched)) (h : Hub), c ∉ h.clients → c ∉ registered steps →
      (∀ e ∈ (h.Run steps).2, e.isWriteTo c = false ∧ e.isCloseOf c = false) ∧
      c ∉ (h.Run steps).1.clients := by
  intro steps
  induction steps with
  | nil => intro h hc _; simp [Hub.Run, hc]
  | cons s rest ih =>
    intro h hc hreg
    obtain ⟨m, sc⟩ := s
    have hm : m ≠ .register c := by
      rintro rfl
      simp [registered] at hreg
    have hreg2 : c ∉ registered rest := by
      cases m <;> simp_all [registered]
    have hc2 : c ∉ (h.step m sc).1.clients := by
      intro hx
      rcases step_mem h m sc c hx with hx | hx
      · exact hc hx
      · exact hm hx
    have ih2 := ih (h.step m sc).1 hc2 hreg2
    simp only [Hub.Run]
    refine ⟨?_, ih2.2⟩
    intro e he
    rcases List.mem_append.mp he with he | he
    · exact step_touches h m sc c hc e he
    · exact ih2.1 e he

/-- In a run that registers each connection at most once, and none that is
registered at its start, `c` is closed once when it was registered at some
time and is not at the end, and not at all otherwise. -/
theorem Run_closes (c : Conn) :
    ∀ (steps : List (Msg × Sched)) (h : Hub), (registered steps).Nodup →
      (∀ x ∈ registered steps, x ∉ h.clients) →
      (h.Run steps).2.countP (HubEvent.isCloseOf c) =
        if (c ∈ h.clients ∨ c ∈ registered steps) ∧ c ∉ (h.Run steps).1.clients
        then 1 else 0 := by
  intro steps
  induction steps with
  | nil => intro h _ _; simp [Hub.Run, registered]
  | cons s rest ih =>
    intro h hnd hfresh
    obtain ⟨m, sc⟩ := s
    have hnd2 : (registered rest).Nodup := by
      cases m
      · simp only [registered, List.nodup_cons] at hnd; exact hnd.2
      · simpa [registered] using hnd
      · simpa [registered] using hnd
    have hsub : ∀ x ∈ registered rest, x ∈ registered ((m, sc) :: rest) := by
      intro x hx
      cases m <;> simp [registered, hx]
    have hfresh2 : ∀ x ∈ registered rest, x ∉ (h.step m sc).1.clients := by
      intro x hx hin
      rcases step_mem h m sc x hin with hin | hin
      · exact hfresh x (hsub x hx) hin
      · subst hin
        simp only [registered, List.nodup_cons] at hnd
        exact hnd.1 hx
    simp only [Hub.Run, List.countP_append, step_closes h m sc c,
      ih (h.step m sc).1 hnd2 hfresh2]
    by_cases hc : c ∈ h.clients
    · have hnr : c ∉ registered ((m, sc) :: rest) := fun hx => hfresh c hx hc
      have hnr2 : c ∉ registered rest := fun hx => hnr (hsub c hx)
      by_cases hc2 : c ∈ (h.step m sc).1.clients
      · simp [hc, hc2]
      · have hout := (Run_untouched c rest (h.step m sc).1 hc2 hnr2).2
        simp [hc, hc2, hnr2, hout]
    · by_cases hm : m = .register c
      · subst hm
        have hc2 : c ∈ (h.step (.register c) sc).1.clients := by
          rw [step_register]; simp
        simp [hc, hc2, registered]
      · have hc2 : c ∉ (h.step m sc).1.clients := by
          intro hx
          rcases step_mem h m sc c hx with hx | hx
          · exact hc hx
          · exact hm hx
        have hiff : c ∈ registered ((m, sc) :: rest) ↔ c ∈ registered rest := by
          cases m with
          | register c0 =>
            have : c ≠ c0 := fun hx => hm (hx ▸ rfl)
            simp [registered, this]
          | unregister c0 => simp [registered]
          | broadcast message => simp [registered]
        simp [hc, hc2, hiff]

/-- C10: in every run of the hub from the empty Registry that registers each
connection at most once, a connection `c` that was registered and is no
longer in the Registry after the steps `pre` is not touched by any later
step: the steps `post` make no write to `c` and no close of `c`, `c` stays
out of the Registry, and the whole run closes `c` exactly once. -/
theorem removed_connection_never_touched (pre post : List (Msg × Sched)) (c : Conn)
    (hreg : (registered (pre ++ post)).Nodup)
    (hc : c ∈ registered pre)
    (hrem : c ∉ (NewHub.Run pre).1.clients) :
    (NewHub.Run (pre ++ post)).2 = (NewHub.Run pre).2 ++ ((NewHub.Run pre).1.Run post).2 ∧
    (∀ e ∈ ((NewHub.Run pre).1.Run post).2,
      e.isWriteTo c = false ∧ e.isCloseOf c = false) ∧
    c ∉ (NewHub.Run (pre ++ post)).1.clients ∧
    (NewHub.Run pre).2.countP (HubEvent.isCloseOf c) = 1 ∧
    (NewHub.Run (pre ++ post)).2.countP (HubEvent.isCloseOf c) = 1 := by
  rw [registered_append] at hreg
  have hnd1 : (registered pre).Nodup := (List.nodup_append.mp hreg).1
  have hnd : (registered (pre ++ post)).Nodup := by rw [registered_append]; exact hreg
  have hpost : c ∉ registered post := fun hx => (List.nodup_append.mp hreg).2.2 hc hx
  have hun := Run_untouched c post (NewHub.Run pre).1 hrem hpost
  have hfin : c ∉ (NewHub.Run (pre ++ post)).1.clients := by
    rw [Run_append]; exact hun.2
  have hcl1 := Run_closes c pre NewHub hnd1 (by simp [NewHub])
  have hcl := Run_closes c (pre ++ post) NewHub hnd (by simp [NewHub])
  have hc12 : c ∈ registered (pre ++ post) := by
    rw [registered_append]; exact List.mem_append_left _ hc
  refine ⟨by rw [Run_append], hun.1, hfin, ?_, ?_⟩
  · rw [hcl1]; simp [hc, hrem]
  · rw [hcl]; simp [hc12, hfin]

/-- C10 at a run in which connection 2 is evicted by a failed write, then
unregistered by its read loop, while later broadcasts go on. -/
theorem removed_connection_never_touched_witness :
    (registered (sampleRunStart ++ sampleRunRest)).Nodup ∧
    (2 : Conn) ∈ registered sampleRunStart ∧
    (2 : Conn) ∉ (NewHub.Run sampleRunStart).1.clients ∧
    (∀ e ∈ ((NewHub.Run sampleRunStart).1.Run sampleRunRest).2,
      e.isWriteTo 2 = false ∧ e.isCloseOf 2 = false) ∧
    (NewHub.Run (sampleRunStart ++ sampleRunRest)).2.countP (HubEvent.isCloseOf 2) = 1 :=
  ⟨by decide, by decide, by decide,
   (removed_connection_never_touched sampleRunStart sampleRunRest 2
     (by decide) (by decide) (by decide)).2.1,
   (removed_connection_never_touched sampleRunStart sampleRunRest 2
     (by decide) (by decide) (by decide)).2.2.2.2⟩

end LeaderboardService
